import Mathlib

/-!
Verification of the `rollup-plugin-hash` post-build hook.

This file shallowly embeds the plugin source (the ES module whose exported
factory returns an object with an `onwrite` hook) into Lean.  JavaScript
strings are modelled as `List Char`; option values whose runtime type matters
(`manifest`, `manifestKey`) are modelled by a small JS value type with the
JS notions of truthiness and `typeof x === 'string'`.  Filesystem calls are
not executed: `onwrite` returns the ordered list of filesystem/callback
effects the hook performs, together with the thrown error message (if any)
and the final `file` field of the artifact's source map.  The cryptographic
digest (`hasha`) is an external collaborator and is passed in as an opaque
function from algorithm name and code to digest.
-/

/-- Left brace character, kept out of string literals. -/
def lbrace : Char := '\x7b'

/-- Right brace character, kept out of string literals. -/
def rbrace : Char := '\x7d'

/-- Dollar character used by the JavaScript `String.prototype.replace`
replacement-pattern syntax. -/
def dollarChar : Char := '$'

/-- Backquote character (code 96). -/
def backquoteChar : Char := Char.ofNat 96

/-- Single-quote character (code 39). -/
def squoteChar : Char := Char.ofNat 39

/-- A JavaScript option value, as far as the plugin's validation can
distinguish them: strings, (integer) numbers and booleans.  This is enough
to express the `typeof x !== 'string'` checks and JS truthiness used by
`onwrite`. -/
inductive JSVal where
  | str (s : List Char)
  | num (n : Int)
  | boolVal (b : Bool)
deriving DecidableEq, Repr

/-- JavaScript truthiness of a `JSVal`: a string is truthy iff nonempty, a
number iff nonzero, a boolean iff `true`. -/
def JSVal.truthy : JSVal → Bool
  | .str s => !s.isEmpty
  | .num n => n != 0
  | .boolVal b => b

/-- Decimal rendering of an integer, as JavaScript's `ToString` would render
the integral numbers we model. -/
def jsNumStr (n : Int) : List Char :=
  (if n < 0 then ['-'] else []) ++ Nat.toDigits 10 n.natAbs

/-- JavaScript `ToPropertyKey`/`ToString` for the modelled values, used when a
value becomes a computed object key. -/
def JSVal.keyString : JSVal → List Char
  | .str s => s
  | .num n => jsNumStr n
  | .boolVal b => if b then ['t','r','u','e'] else ['f','a','l','s','e']

/-- Truthiness of a possibly-absent option value (`undefined` is falsy). -/
def optTruthy : Option JSVal → Bool
  | none => false
  | some v => v.truthy

/-- The JS test `typeof v !== 'string'` on a possibly-absent value
(`undefined` is not a string, but the plugin only reaches this test on
truthy values). -/
def optNonStr : Option JSVal → Bool
  | none => true
  | some (.str _) => false
  | some _ => true

/-- Truthiness of a possibly-absent JS string (`undefined` and `''` are
falsy). -/
def jsStrTruthy : Option (List Char) → Bool
  | none => false
  | some s => !s.isEmpty

/-- Source: `const algorithms = ...` — the object literal mapping each of the
four supported algorithm names to `true`, modelled by its own enumerable keys
as an association list. -/
def algorithms : List (List Char × Bool) :=
  [ (['m','d','5'], true),
    (['s','h','a','1'], true),
    (['s','h','a','2','5','6'], true),
    (['s','h','a','5','1','2'], true) ]

/-- The property names a plain object literal inherits from
`Object.prototype`.  Reading any of them yields a truthy value: the first
eleven are functions, and the `__proto__` accessor returns the
`Object.prototype` object itself. -/
def objectPrototypeKeys : List (List Char) :=
  [ "constructor".toList,
    "hasOwnProperty".toList,
    "isPrototypeOf".toList,
    "propertyIsEnumerable".toList,
    "toLocaleString".toList,
    "toString".toList,
    "valueOf".toList,
    "__defineGetter__".toList,
    "__defineSetter__".toList,
    "__lookupGetter__".toList,
    "__lookupSetter__".toList,
    "__proto__".toList ]

/-- The truthiness of `algorithms[a]`, following JavaScript property
resolution: the literal's own keys first (all mapped to `true`), then the
inherited `Object.prototype` properties, which are all truthy — so names such
as `toString` or `constructor` also look up to a truthy value. -/
def algLookup (a : List Char) : Bool :=
  match algorithms.find? (fun p => p.1 = a) with
  | some p => p.2
  | none => decide (a ∈ objectPrototypeKeys)

/-- Source: `msg.noTemplate`. -/
def msgNoTemplate : List Char :=
  "[Hash] Destination filename must contain `[hash]` template.".toList

/-- Source: `msg.noAlgorithm`. -/
def msgNoAlgorithm : List Char :=
  "[Hash] Algorithm can only be one of: md5, sha1, sha256, sha512".toList

/-- Source: `msg.noManifest`. -/
def msgNoManifest : List Char :=
  "[Hash] Manifest filename must be a string".toList

/-- Source: `msg.noManifestKey`. -/
def msgNoManifestKey : List Char :=
  "[Hash] Key for manifest filename must be a string".toList

/-- Message standing for the `TypeError` raised when `data.map.file` is
assigned while `data.map` is `undefined`. -/
def msgMapTypeError : List Char :=
  "TypeError: Cannot set properties of undefined".toList

/-- Splits a leading run of decimal digits off a character list, as the greedy
regex atom `\d+`-with-continuation does at a fixed position. -/
def takeDigits : List Char → List Char × List Char
  | [] => ([], [])
  | c :: cs =>
    if c.isDigit then
      let p := takeDigits cs
      (c :: p.1, p.2)
    else ([], c :: cs)

/-- Source: `const pattern = ...` — the regex recognizing `[hash]` or
`[hash:N]` (N = one or more decimal digits).  `matchHashHere s` attempts the
match anchored at the head of `s`, returning the captured digit group (if the
`:N` alternative matched) and the remainder of the string after the match. -/
def matchHashHere (s : List Char) : Option (Option (List Char) × List Char) :=
  match s with
  | b1 :: h1 :: a1 :: s1 :: h2 :: rest =>
    if b1 = '[' ∧ h1 = 'h' ∧ a1 = 'a' ∧ s1 = 's' ∧ h2 = 'h' then
      match rest with
      | [] => none
      | c :: rest2 =>
        if c = ']' then some (none, rest2)
        else if c = ':' then
          let p := takeDigits rest2
          if p.1 = [] then none
          else
            match p.2 with
            | c2 :: rest3 => if c2 = ']' then some (some p.1, rest3) else none
            | [] => none
        else none
    else none
  | _ => none

/-- Leftmost (first) match of the pattern in a string, as `pattern.exec` /
`pattern.test` / `String.prototype.replace` with a non-global regex find it.
Returns the text before the match, the captured digit group, and the text
after the match. -/
def findHash : List Char → Option (List Char × Option (List Char) × List Char)
  | [] => none
  | c :: cs =>
    match matchHashHere (c :: cs) with
    | some (d, rest) => some ([], d, rest)
    | none =>
      match findHash cs with
      | some (pre, d, rest) => some (c :: pre, d, rest)
      | none => none

/-- The literal text of a placeholder: `[hash]` when no length group is
present, `[hash:N]` when the digits `N` were captured. -/
def placeholderStr : Option (List Char) → List Char
  | none => ['[','h','a','s','h',']']
  | some ds => ['[','h','a','s','h',':'] ++ ds ++ [']']

/-- Source: `function hasTemplate(dest)` — `pattern.test(dest)`. -/
def hasTemplate (dest : List Char) : Bool :=
  (findHash dest).isSome

/-- JavaScript `Number(...)` on a string of decimal digits. -/
def digitsToNat (ds : List Char) : Nat :=
  ds.foldl (fun a c => a * 10 + (c.toNat - 48)) 0

/-- The `GetSubstitution` processing that `String.prototype.replace` applies
to a replacement string: `$$`, the matched text for a `$` followed by `&`,
the preceding text for a `$` followed by a backquote, the following text for
a `$` followed by a single quote, the first capture for `$1` (empty when the
group did not participate); any other `$`-sequence is literal. -/
def substRepl (matched pre suf : List Char) (cap1 : Option (List Char)) :
    List Char → List Char
  | [] => []
  | [c] => [c]
  | a :: b :: rest =>
    if a = dollarChar then
      if b = dollarChar then dollarChar :: substRepl matched pre suf cap1 rest
      else if b = '&' then matched ++ substRepl matched pre suf cap1 rest
      else if b = backquoteChar then pre ++ substRepl matched pre suf cap1 rest
      else if b = squoteChar then suf ++ substRepl matched pre suf cap1 rest
      else if b = '1' then
        (match cap1 with | some cs => cs | none => []) ++
          substRepl matched pre suf cap1 rest
      else a :: b :: substRepl matched pre suf cap1 rest
    else a :: substRepl matched pre suf cap1 (b :: rest)

/-- Source: `function formatFilename(dest, hash)`.  `pattern.exec(dest)` finds
the first match; `match && match[1]` is the captured length string; the JS
test `if (length)` takes the truthy branch exactly when the capture is a
nonempty string, in which case the digest is cut to its first `Number(length)`
characters by `hash.substr(0, +length)`; finally
`dest.replace(pattern, hashResult)` replaces the first match, processing the
replacement through `GetSubstitution`. -/
def formatFilename (dest hsh : List Char) : List Char :=
  match findHash dest with
  | none => dest
  | some (pre, len, suf) =>
    let hashResult :=
      match len with
      | none => hsh
      | some ds => if ds = [] then hsh else hsh.take (digitsToNat ds)
    pre ++ substRepl (placeholderStr len) pre suf len hashResult ++ suf

/-- Hex digit character (lowercase) for a value below 16, as
`JSON.stringify` renders `\u00XX` escapes. -/
def hexDig (n : Nat) : Char :=
  if n < 10 then Char.ofNat (48 + n) else Char.ofNat (87 + n)

/-- Value of a hex digit character, `none` for non-hex characters. -/
def hexVal (c : Char) : Option Nat :=
  if 48 ≤ c.toNat ∧ c.toNat ≤ 57 then some (c.toNat - 48)
  else if 97 ≤ c.toNat ∧ c.toNat ≤ 102 then some (c.toNat - 87)
  else if 65 ≤ c.toNat ∧ c.toNat ≤ 70 then some (c.toNat - 55)
  else none

/-- The escaping `JSON.stringify` applies to one character of a string value:
quote and backslash get a backslash prefix, the five short control escapes
are used where they exist, other control characters become `\u00XX`, and
everything else is copied verbatim. -/
def escapeChar (c : Char) : List Char :=
  if c = '"' then ['\\', '"']
  else if c = '\\' then ['\\', '\\']
  else if c = '\x08' then ['\\', 'b']
  else if c = '\x09' then ['\\', 't']
  else if c = '\x0a' then ['\\', 'n']
  else if c = '\x0c' then ['\\', 'f']
  else if c = '\x0d' then ['\\', 'r']
  else if c.toNat < 32 then
    ['\\', 'u', '0', '0', hexDig (c.toNat / 16), hexDig (c.toNat % 16)]
  else [c]

/-- `JSON.stringify` escaping of a whole string value. -/
def escapeStr (s : List Char) : List Char :=
  s.flatMap escapeChar

/-- A JSON string literal: quote, escaped body, quote. -/
def jsonString (s : List Char) : List Char :=
  '"' :: (escapeStr s ++ ['"'])

/-- Source: `function generateManifest(input, output)` — the result of
`JSON.stringify` on the computed-key object literal with the single entry
`input: output`: an opening brace, the two JSON string literals separated by
a colon, and a closing brace. -/
def generateManifest (input output : List Char) : List Char :=
  lbrace :: (jsonString input ++ [':'] ++ jsonString output ++ [rbrace])

/-- Glues a character onto the string part of a string-reader result. -/
def consFst (c : Char) : Option (List Char × List Char) → Option (List Char × List Char)
  | none => none
  | some (s, r) => some (c :: s, r)

/-- A reader for the body of a JSON string literal (the part after the
opening quote): decodes escapes and stops at the closing quote, returning the
decoded text and the rest of the input.  Unescaped control characters and
malformed escapes are rejected. -/
def readStr : List Char → Option (List Char × List Char)
  | [] => none
  | c :: rest =>
    if c = '"' then some ([], rest)
    else if c = '\\' then
      match rest with
      | [] => none
      | e :: r =>
        if e = '"' then consFst '"' (readStr r)
        else if e = '\\' then consFst '\\' (readStr r)
        else if e = '/' then consFst '/' (readStr r)
        else if e = 'b' then consFst '\x08' (readStr r)
        else if e = 'f' then consFst '\x0c' (readStr r)
        else if e = 'n' then consFst '\x0a' (readStr r)
        else if e = 'r' then consFst '\x0d' (readStr r)
        else if e = 't' then consFst '\x09' (readStr r)
        else if e = 'u' then
          match r with
          | x1 :: x2 :: x3 :: x4 :: r2 =>
            match hexVal x1, hexVal x2, hexVal x3, hexVal x4 with
            | some v1, some v2, some v3, some v4 =>
              consFst (Char.ofNat (4096 * v1 + 256 * v2 + 16 * v3 + v4)) (readStr r2)
            | _, _, _, _ => none
          | _ => none
        else none
    else if c.toNat < 32 then none
    else consFst c (readStr rest)

/-- A recognizer for exactly the JSON texts that are an object with a single
string-valued entry and no surrounding whitespace — the fragment of JSON that
a manifest file must inhabit.  On success it returns the (decoded) key and
value. -/
def parseSingletonObj (s : List Char) : Option (List Char × List Char) :=
  match s with
  | [] => none
  | c :: rest =>
    if c ≠ lbrace then none
    else
      match rest with
      | [] => none
      | q :: rest2 =>
        if q ≠ '"' then none
        else
          match readStr rest2 with
          | none => none
          | some (k, rest3) =>
            match rest3 with
            | cl :: q2 :: rest4 =>
              if cl = ':' ∧ q2 = '"' then
                match readStr rest4 with
                | some (v, close) =>
                  if close = [rbrace] then some (k, v) else none
                | none => none
              else none
            | _ => none

/-- The `sourcemap` output flag the bundler hands to the hook:
absent/`false`, `true`, or the string `'inline'`. -/
inductive SMapMode where
  | off
  | plain
  | inlineMap
deriving DecidableEq, Repr

/-- JS truthiness of the `sourcemap` flag. -/
def smTruthy : SMapMode → Bool
  | .off => false
  | _ => true

/-- The artifact's source-map object.  Its `file` field is plain data; its
`toString()` and `toUrl()` methods serialize the map (including the current
`file` field) and are modelled as opaque functions of that field, since the
hook mutates `file` before calling them. -/
structure SourceMap where
  file : List Char
  serialize : List Char → List Char
  toUrl : List Char → List Char

/-- The first argument of `onwrite`: the bundle/output options object, of
which the hook reads `file`, `dest` and `sourcemap`. -/
structure Bundle where
  file : Option (List Char)
  dest : Option (List Char)
  sourcemap : SMapMode

/-- The second argument of `onwrite`: the emitted artifact, of which the hook
reads `code` and `map`. -/
structure BundleData where
  code : List Char
  map : Option SourceMap

/-- The plugin options after `Object.assign` with `defaultOptions` (so
`algorithm` defaults to `sha1` and `replace` to `false`).  `output` models
the optional `output` object via its `file` field; `manifest` and
`manifestKey` keep their JS value because their type is validated at run
time; `callback` records whether a function-valued callback was supplied. -/
structure Options where
  dest : Option (List Char)
  output : Option (Option (List Char))
  algorithm : List Char
  replace : Bool
  manifest : Option JSVal
  manifestKey : Option JSVal
  callback : Bool

/-- One observable action of the hook, in program order.  `unlink` keeps the
possibly-`undefined` argument it would pass to `fs.unlinkSync`; `mkdirpath`
stands for the recursive parent-directory creation of the named destination;
I/O-level failures of these calls are outside the model. -/
inductive Effect where
  | unlink (p : Option (List Char))
  | mkdirpath (p : List Char)
  | writeFile (p : List Char) (contents : List Char)
  | callback (p : List Char)
deriving DecidableEq, Repr

/-- Result of one `onwrite` invocation: the effects performed before
returning or throwing, the thrown error message (`none` on success), and the
final `file` field of `data.map` (`none` when the artifact has no map). -/
structure Outcome where
  effects : List Effect
  error : Option (List Char)
  mapFile : Option (List Char)
deriving DecidableEq, Repr

/-- Source: `const destinationOption = ...` — the `output.file` field when an
`output` object is supplied (objects are always truthy), else `options.dest`. -/
def destinationOption (o : Options) : Option (List Char) :=
  match o.output with
  | some f => f
  | none => o.dest

/-- Source: `const builtFile = ...` — `bundle.file || bundle.dest` with JS
truthiness, so an absent or empty `bundle.file` falls back to `bundle.dest`. -/
def builtFile (b : Bundle) : Option (List Char) :=
  if jsStrTruthy b.file then b.file else b.dest

/-- The string of a validated `manifest` option.  Only evaluated under the
guard that `options.manifest` is truthy, which after validation implies it is
a (nonempty) string; the fallback branch is unreachable there. -/
def manifestPath (o : Options) : List Char :=
  match o.manifest with
  | some (.str s) => s
  | _ => []

/-- Source: the manifest key expression — `options.manifestKey || builtFile`
under JS truthiness, coerced to a property key (an `undefined` built file
would stringify to `undefined`). -/
def manifestKeyOrBuilt (o : Options) (bf : Option (List Char)) : List Char :=
  if optTruthy o.manifestKey then
    match o.manifestKey with
    | some v => v.keyString
    | none => []
  else
    match bf with
    | some s => s
    | none => "undefined".toList

/-- Node's POSIX `path.basename`: the last path segment, ignoring trailing
slashes. -/
def basename (p : List Char) : List Char :=
  let q := (p.reverse.dropWhile (· = '/')).reverse
  (q.reverse.takeWhile (· ≠ '/')).reverse

/-- The literal `.map` suffix. -/
def dotMap : List Char := ['.','m','a','p']

/-- The `\n//# sourceMappingURL=` comment prefix appended to the emitted
code when a source map is requested. -/
def smComment : List Char := '\x0a' :: "//# sourceMappingURL=".toList

/-- Source: the `onwrite` hook.  `hashFn` stands for the external `hasha`
collaborator: `hasha(data.code, options)` is `hashFn options.algorithm
data.code`.  The four validation checks run first and throw (with no effects)
on failure; then the digest and resolved filename are computed and the
effects are performed in source order: the `replace` unlink, the manifest
directory creation and write, the destination directory creation, the
source-map mutation and sibling write (or inline URL), the code write, and
the callback.  Assigning `data.map.file` while `data.map` is `undefined`
throws a `TypeError` at that point, keeping the effects already performed. -/
def onwrite (hashFn : List Char → List Char → List Char)
    (o : Options) (b : Bundle) (d : BundleData) : Outcome :=
  let dOpt := destinationOption o
  let bf := builtFile b
  let origMapFile := d.map.map SourceMap.file
  if !jsStrTruthy dOpt || !hasTemplate (dOpt.getD []) then
    ⟨[], some msgNoTemplate, origMapFile⟩
  else if !algLookup o.algorithm then
    ⟨[], some msgNoAlgorithm, origMapFile⟩
  else if optTruthy o.manifest && optNonStr o.manifest then
    ⟨[], some msgNoManifest, origMapFile⟩
  else if optTruthy o.manifestKey && optNonStr o.manifestKey then
    ⟨[], some msgNoManifestKey, origMapFile⟩
  else
    let hsh := hashFn o.algorithm d.code
    let fileName := formatFilename (dOpt.getD []) hsh
    let replaceEffects := if o.replace then [Effect.unlink bf] else []
    let manifestEffects :=
      if optTruthy o.manifest then
        [Effect.mkdirpath (manifestPath o),
         Effect.writeFile (manifestPath o)
           (generateManifest (manifestKeyOrBuilt o bf) fileName)]
      else []
    if smTruthy b.sourcemap then
      match d.map with
      | none =>
        ⟨replaceEffects ++ manifestEffects ++ [Effect.mkdirpath fileName],
         some msgMapTypeError, none⟩
      | some m =>
        let bn := basename fileName
        let inl := b.sourcemap = SMapMode.inlineMap
        let url := if inl then m.toUrl bn else bn ++ dotMap
        let mapEffects :=
          if inl then []
          else [Effect.writeFile (fileName ++ dotMap) (m.serialize bn)]
        let code' := d.code ++ smComment ++ url
        ⟨replaceEffects ++ manifestEffects ++ [Effect.mkdirpath fileName] ++
           mapEffects ++ [Effect.writeFile fileName code'] ++
           (if o.callback then [Effect.callback fileName] else []),
         none, some bn⟩
    else
      ⟨replaceEffects ++ manifestEffects ++ [Effect.mkdirpath fileName] ++
         [Effect.writeFile fileName d.code] ++
         (if o.callback then [Effect.callback fileName] else []),
       none, origMapFile⟩

/-- The disjunction of the four validation conditions exactly as `onwrite`
tests them: missing or placeholder-less destination, unsupported algorithm,
truthy non-string `manifest`, truthy non-string `manifestKey`. -/
def checksFail (o : Options) : Bool :=
  (!jsStrTruthy (destinationOption o) ||
     !hasTemplate ((destinationOption o).getD [])) ||
  !algLookup o.algorithm ||
  (optTruthy o.manifest && optNonStr o.manifest) ||
  (optTruthy o.manifestKey && optNonStr o.manifestKey)

/-- The sibling `.map` write performed in non-inline source-map mode, as a
function of the resolved filename (empty in the other modes). -/
def mapSiblingEffects (b : Bundle) (d : BundleData) (fn : List Char) : List Effect :=
  match b.sourcemap, d.map with
  | SMapMode.plain, some m =>
    [Effect.writeFile (fn ++ dotMap) (m.serialize (basename fn))]
  | _, _ => []

/-- The code text finally written to the resolved filename: the artifact code
with the source-map comment appended when a map is requested (the sibling's
basename in non-inline mode, the map's URL in inline mode). -/
def emittedCode (b : Bundle) (d : BundleData) (fn : List Char) : List Char :=
  match b.sourcemap, d.map with
  | SMapMode.off, _ => d.code
  | _, none => d.code
  | SMapMode.plain, some _ => d.code ++ smComment ++ (basename fn ++ dotMap)
  | SMapMode.inlineMap, some m => d.code ++ smComment ++ m.toUrl (basename fn)

/-- A fixed stand-in for the external digest function, used by concrete
evaluations: every input maps to a fixed 40-character hex digest. -/
def demoHash : List Char → List Char → List Char :=
  fun _ _ => "da39a3ee5e6b4b0d3255bfef95601890afd80709".toList

/-- A concrete source-map object for concrete evaluations. -/
def demoMap : SourceMap :=
  ⟨"index.js".toList,
   fun _ => "SERIALIZED_MAP".toList,
   fun _ => "data:application/json;charset=utf-8;base64,TWFw".toList⟩

/-- A concrete bundle with no `file` field, a `dest` of `tmp/index.js` and no
source map, for concrete evaluations. -/
def bundle0 : Bundle := ⟨none, some "tmp/index.js".toList, SMapMode.off⟩

/-- A concrete artifact with no source map, for concrete evaluations. -/
def data0 : BundleData := ⟨"var x = 1;".toList, none⟩

/-- A concrete bundle requesting a non-inline source map. -/
def bundleSM : Bundle := ⟨some "tmp/index.js".toList, none, SMapMode.plain⟩

/-- A concrete artifact carrying `demoMap`. -/
def dataSM : BundleData := ⟨"var x = 1;".toList, some demoMap⟩

/-- Concrete options without a destination (fails the template check). -/
def optsNoDest : Options := ⟨none, none, "sha1".toList, false, none, none, false⟩

/-- Concrete options with an unsupported algorithm. -/
def optsBadAlg : Options :=
  ⟨some "tmp/[hash].js".toList, none, "foo".toList, false, none, none, false⟩

/-- Concrete options whose algorithm is the inherited property name
`toString`. -/
def optsProtoAlg : Options :=
  ⟨some "tmp/[hash].js".toList, none, "toString".toList, false, none, none,
   false⟩

/-- Concrete options exercising the full success path: `replace`, a manifest,
and a callback. -/
def optsFull : Options :=
  ⟨some "tmp/[hash].js".toList, none, "sha1".toList, true,
   some (JSVal.str "m/manifest.json".toList), none, true⟩

/-- Concrete options supplying a falsy non-string `manifest` (the number 0). -/
def optsFalsyManifest : Options :=
  ⟨some "tmp/[hash].js".toList, none, "sha1".toList, false,
   some (JSVal.num 0), none, false⟩

/-- Concrete options supplying a truthy non-string `manifest` (the number 1). -/
def optsTruthyNonStrManifest : Options :=
  ⟨some "tmp/[hash].js".toList, none, "sha1".toList, false,
   some (JSVal.num 1), none, false⟩

/-- Concrete options supplying a manifest path together with the empty string
as `manifestKey`. -/
def optsEmptyKey : Options :=
  ⟨some "tmp/[hash].js".toList, none, "sha1".toList, false,
   some (JSVal.str "manifest.json".toList), some (JSVal.str []), false⟩

/-- Concrete options with a manifest and no `manifestKey`. -/
def optsManifest : Options :=
  ⟨some "tmp/[hash].js".toList, none, "sha1".toList, false,
   some (JSVal.str "manifest.json".toList), none, false⟩

/-- Concrete options with no manifest, for the source-map claims. -/
def optsPlainDest : Options :=
  ⟨some "tmp/[hash].js".toList, none, "sha1".toList, false, none, none, false⟩

/-- Reassembling the split of `takeDigits` gives back the input. -/
theorem takeDigits_append (l : List Char) :
    (takeDigits l).1 ++ (takeDigits l).2 = l := by
  induction l with
  | nil => rfl
  | cons c cs ih =>
    by_cases h : c.isDigit <;> simp [takeDigits, h, ih]

/-- A successful anchored match decomposes the input into the literal
placeholder text followed by the remainder, and a captured digit group is
never empty. -/
theorem matchHashHere_decomp {s rest : List Char} {d : Option (List Char)}
    (h : matchHashHere s = some (d, rest)) :
    s = placeholderStr d ++ rest ∧ ∀ ds, d = some ds → ds ≠ [] := by
  rcases s with _ | ⟨c1, s⟩; · simp [matchHashHere] at h
  rcases s with _ | ⟨c2, s⟩; · simp [matchHashHere] at h
  rcases s with _ | ⟨c3, s⟩; · simp [matchHashHere] at h
  rcases s with _ | ⟨c4, s⟩; · simp [matchHashHere] at h
  rcases s with _ | ⟨c5, s⟩; · simp [matchHashHere] at h
  simp only [matchHashHere] at h
  split at h
  case isFalse => exact absurd h (by simp)
  case isTrue hc =>
    obtain ⟨e1, e2, e3, e4, e5⟩ := hc
    subst e1; subst e2; subst e3; subst e4; subst e5
    rcases s with _ | ⟨c6, s2⟩
    · simp at h
    · simp only at h
      split at h
      · -- bare `[hash]`
        rename_i h6
        subst h6
        cases h
        simp [placeholderStr]
      · split at h
        · -- `[hash:N]`
          rename_i h6 h7
          subst h7
          split at h
          · exact absurd h (by simp)
          · rename_i hne
            rcases hp : (takeDigits s2).2 with _ | ⟨c7, rest3⟩ <;> rw [hp] at h
            · exact absurd h (by simp)
            · split at h
              case h_2 => exact absurd h (by simp)
              case h_1 x c2x rest3x h8 =>
                injection h8 with e1 e2
                subst e1; subst e2
                split at h
                case isFalse => exact absurd h (by simp)
                rename_i h9
                subst h9
                cases h
                have hs2 : (takeDigits s2).1 ++ ']' :: rest = s2 := by
                  rw [← hp]; exact takeDigits_append s2
                refine ⟨?_, ?_⟩
                · simp only [placeholderStr, List.cons_append, List.nil_append,
                    List.append_assoc]
                  conv_lhs => rw [← hs2]
                · intro ds hds
                  rw [← Option.some_inj.mp hds]
                  exact hne
        · exact absurd h (by simp)

/-- A successful search decomposes the input around the leftmost match: the
input is the prefix, the placeholder text and the suffix in order, a captured
digit group is nonempty, and no match starts strictly before the returned
prefix ends. -/
theorem findHash_decomp {s pre suf : List Char} {d : Option (List Char)}
    (h : findHash s = some (pre, d, suf)) :
    s = pre ++ placeholderStr d ++ suf ∧
    (∀ ds, d = some ds → ds ≠ []) ∧
    (∀ p q : List Char, s = p ++ q → p.length < pre.length →
       matchHashHere q = none) := by
  induction s generalizing pre with
  | nil => simp [findHash] at h
  | cons c cs ih =>
    rw [findHash] at h
    rcases hm : matchHashHere (c :: cs) with _ | ⟨d0, rest0⟩ <;> rw [hm] at h
    · rcases hf : findHash cs with _ | ⟨⟨pre1, d1, suf1⟩⟩ <;> rw [hf] at h
      · exact absurd h (by simp)
      · cases h
        obtain ⟨hdec, hdig, hleft⟩ := ih hf
        refine ⟨by simp [hdec], hdig, ?_⟩
        intro p q hpq hlen
        rcases p with _ | ⟨cp, p'⟩
        · simp at hpq
          rw [hpq] at hm
          exact hm
        · simp only [List.cons_append, List.cons.injEq] at hpq
          obtain ⟨hcp, hcs⟩ := hpq
          exact hleft p' q hcs (by simpa using hlen)
    · cases h
      obtain ⟨hdec, hdig⟩ := matchHashHere_decomp hm
      exact ⟨by simpa using hdec, hdig, fun p q hpq hlen => absurd hlen (by simp)⟩

/-- A replacement string containing no dollar sign passes through the
`GetSubstitution` processing unchanged. -/
theorem substRepl_no_dollar (m p s : List Char) (c : Option (List Char)) :
    ∀ l : List Char, dollarChar ∉ l → substRepl m p s c l = l := by
  intro l
  induction l with
  | nil => intro _; rfl
  | cons a t ih =>
    intro h
    cases t with
    | nil => rfl
    | cons b r =>
      have ha : a ≠ dollarChar := fun e => h (by simp [e])
      have h' : dollarChar ∉ b :: r := fun e => h (List.mem_cons_of_mem _ e)
      simp [substRepl, ha, ih h']

/-- The digest part substituted for the placeholder: the full digest for a
bare `[hash]` (or the vacuous falsy-capture case), its first `N` characters
for `[hash:N]`. -/
def hashResultOf (d : Option (List Char)) (hsh : List Char) : List Char :=
  match d with
  | none => hsh
  | some ds => if ds = [] then hsh else hsh.take (digitsToNat ds)

/-- Evaluation of `formatFilename` at a destination whose leftmost match is
known, for a dollar-free replacement (hex digests never contain `$`). -/
theorem formatFilename_eq {dest pre suf : List Char} {d : Option (List Char)}
    (hf : findHash dest = some (pre, d, suf)) (hsh : List Char)
    (hnd : dollarChar ∉ hsh) :
    formatFilename dest hsh = pre ++ hashResultOf d hsh ++ suf := by
  unfold formatFilename hashResultOf
  rw [hf]
  cases d with
  | none => simp [substRepl_no_dollar _ _ _ _ _ hnd]
  | some ds =>
    by_cases hds : ds = []
    · simp [hds, substRepl_no_dollar _ _ _ _ _ hnd]
    · have htk : dollarChar ∉ hsh.take (digitsToNat ds) :=
        fun hm => hnd (List.take_subset _ _ hm)
      simp [hds, substRepl_no_dollar _ _ _ _ _ htk]

/-- C1: for every template whose (leftmost) placeholder is `[hash:N]` and
every digest, if `N` is less than the digest's length the resolved path's
hash segment is exactly the first `N` characters of the digest (and has
length `N`), and if `N` is at least the digest's length the full digest is
substituted unchanged — no error and no padding.  The digest is dollar-free,
as every hex digest is. -/
theorem hash_length_truncation (dest pre ds suf hsh : List Char)
    (hf : findHash dest = some (pre, some ds, suf))
    (hnd : dollarChar ∉ hsh) :
    (digitsToNat ds < hsh.length →
       formatFilename dest hsh = pre ++ hsh.take (digitsToNat ds) ++ suf ∧
       (hsh.take (digitsToNat ds)).length = digitsToNat ds) ∧
    (hsh.length ≤ digitsToNat ds →
       formatFilename dest hsh = pre ++ hsh ++ suf) := by
  have hds : ds ≠ [] := (findHash_decomp hf).2.1 ds rfl
  have he := formatFilename_eq hf hsh hnd
  rw [hashResultOf] at he
  simp only [hds, if_false, ite_false] at he
  constructor
  · intro hlt
    refine ⟨by simpa [hds] using he, ?_⟩
    simp [List.length_take]
    omega
  · intro hge
    rw [List.take_of_length_le hge] at he
    simpa [hds] using he

/-- Witness for `hash_length_truncation` at the template `dist/[hash:8].js`
and a 40-character digest. -/
theorem hash_length_truncation_witness :
    (digitsToNat ['8'] <
        ("0123456789abcdef0123456789abcdef01234567".toList).length →
       formatFilename ("dist/[hash:8].js".toList)
           ("0123456789abcdef0123456789abcdef01234567".toList) =
         ("dist/".toList) ++
           ("0123456789abcdef0123456789abcdef01234567".toList).take
             (digitsToNat ['8']) ++ (".js".toList) ∧
       (("0123456789abcdef0123456789abcdef01234567".toList).take
           (digitsToNat ['8'])).length = digitsToNat ['8']) ∧
    (("0123456789abcdef0123456789abcdef01234567".toList).length ≤
        digitsToNat ['8'] →
       formatFilename ("dist/[hash:8].js".toList)
           ("0123456789abcdef0123456789abcdef01234567".toList) =
         ("dist/".toList) ++
           ("0123456789abcdef0123456789abcdef01234567".toList) ++
           (".js".toList)) :=
  hash_length_truncation ("dist/[hash:8].js".toList) ("dist/".toList) ['8']
    (".js".toList) ("0123456789abcdef0123456789abcdef01234567".toList)
    (by decide) (by decide)

/-- C2: for every template whose (leftmost) placeholder is the bare `[hash]`
and every (dollar-free) digest, the resolved path is the template with the
placeholder replaced by the full digest. -/
theorem full_hash_substitution (dest pre suf hsh : List Char)
    (hf : findHash dest = some (pre, none, suf))
    (hnd : dollarChar ∉ hsh) :
    formatFilename dest hsh = pre ++ hsh ++ suf := by
  have he := formatFilename_eq hf hsh hnd
  simpa [hashResultOf] using he

/-- Witness for `full_hash_substitution` at the template `dist/[hash].js`
and a 40-character digest. -/
theorem full_hash_substitution_witness :
    formatFilename ("dist/[hash].js".toList)
        ("da39a3ee5e6b4b0d3255bfef95601890afd80709".toList) =
      ("dist/".toList) ++
        ("da39a3ee5e6b4b0d3255bfef95601890afd80709".toList) ++
        (".js".toList) :=
  full_hash_substitution ("dist/[hash].js".toList) ("dist/".toList)
    (".js".toList) ("da39a3ee5e6b4b0d3255bfef95601890afd80709".toList)
    (by decide) (by decide)

/-- C8: when a template contains more than one placeholder, only the leftmost
match is replaced: no match starts before the returned prefix ends, the
substitution happens at that leftmost match, and the whole tail after it —
including any further placeholder — survives verbatim in the resolved path. -/
theorem first_occurrence_only (dest hsh pre suf p2 s2 : List Char)
    (d d2 : Option (List Char))
    (h1 : findHash dest = some (pre, d, suf))
    (h2 : findHash suf = some (p2, d2, s2))
    (hnd : dollarChar ∉ hsh) :
    (∀ p q : List Char, dest = p ++ q → p.length < pre.length →
       matchHashHere q = none) ∧
    formatFilename dest hsh =
      pre ++ hashResultOf d hsh ++ (p2 ++ placeholderStr d2 ++ s2) := by
  obtain ⟨hdec2, _, _⟩ := findHash_decomp h2
  refine ⟨(findHash_decomp h1).2.2, ?_⟩
  rw [formatFilename_eq h1 hsh hnd, hdec2]

/-- Witness for `first_occurrence_only` at the template `a[hash]b[hash:4]c`:
the second placeholder `[hash:4]` is left unsubstituted. -/
theorem first_occurrence_only_witness :
    (∀ p q : List Char, "a[hash]b[hash:4]c".toList = p ++ q →
       p.length < (['a'] : List Char).length → matchHashHere q = none) ∧
    formatFilename ("a[hash]b[hash:4]c".toList) ("zz99".toList) =
      ['a'] ++ hashResultOf none ("zz99".toList) ++
        (['b'] ++ placeholderStr (some ['4']) ++ ['c']) :=
  first_occurrence_only ("a[hash]b[hash:4]c".toList) ("zz99".toList) ['a']
    ("b[hash:4]c".toList) ['b'] ['c'] none (some ['4'])
    (by decide) (by decide) (by decide)

/-- C10: a template whose (leftmost) placeholder is `[hash:0]` passes the
template validation (`hasTemplate` holds), and the placeholder is replaced by
the empty string — the capture `"0"` is a truthy nonempty string, so the
digest is cut to its first `0` characters. -/
theorem hash_zero_length (dest pre suf hsh : List Char)
    (hf : findHash dest = some (pre, some ['0'], suf))
    (hnd : dollarChar ∉ hsh) :
    hasTemplate dest = true ∧ formatFilename dest hsh = pre ++ suf := by
  refine ⟨by simp [hasTemplate, hf], ?_⟩
  have he := formatFilename_eq hf hsh hnd
  have h0 : digitsToNat ['0'] = 0 := rfl
  simpa [hashResultOf, h0] using he

/-- Witness for `hash_zero_length` at the template `tmp/[hash:0].js`: the
resolved path is `tmp/.js`, with no hash characters at all. -/
theorem hash_zero_length_witness :
    hasTemplate ("tmp/[hash:0].js".toList) = true ∧
    formatFilename ("tmp/[hash:0].js".toList) ("abc".toList) =
      ("tmp/".toList) ++ (".js".toList) :=
  hash_zero_length ("tmp/[hash:0].js".toList) ("tmp/".toList) (".js".toList)
    ("abc".toList) (by decide) (by decide)

/-- Reading back the hex digit character of a value below 16 gives the
value. -/
theorem hexVal_hexDig {n : Nat} (h : n < 16) : hexVal (hexDig n) = some n := by
  interval_cases n <;> rfl

/-- Round trip: the JSON string-body reader decodes an escaped string
followed by a closing quote back to the original string. -/
theorem readStr_escape (s rest : List Char) :
    readStr (escapeStr s ++ '"' :: rest) = some (s, rest) := by
  induction s with
  | nil =>
    show readStr ([] ++ '"' :: rest) = some ([], rest)
    rw [List.nil_append, readStr.eq_def]
    simp
  | cons c s ih =>
    have hstep : escapeStr (c :: s) = escapeChar c ++ escapeStr s := by
      simp [escapeStr]
    rw [hstep, List.append_assoc]
    by_cases h1 : c = '"'
    · subst h1
      rw [show escapeChar '"' = ['\\', '"'] from rfl]
      rw [List.cons_append, List.cons_append, readStr.eq_def]
      simp [consFst, ih]
    by_cases h2 : c = '\\'
    · subst h2
      rw [show escapeChar '\\' = ['\\', '\\'] from rfl]
      rw [List.cons_append, List.cons_append, readStr.eq_def]
      simp [consFst, ih]
    by_cases h3 : c = '\x08'
    · subst h3
      rw [show escapeChar '\x08' = ['\\', 'b'] from rfl]
      rw [List.cons_append, List.cons_append, readStr.eq_def]
      simp [consFst, ih]
    by_cases h4 : c = '\x09'
    · subst h4
      rw [show escapeChar '\x09' = ['\\', 't'] from rfl]
      rw [List.cons_append, List.cons_append, readStr.eq_def]
      simp [consFst, ih]
    by_cases h5 : c = '\x0a'
    · subst h5
      rw [show escapeChar '\x0a' = ['\\', 'n'] from rfl]
      rw [List.cons_append, List.cons_append, readStr.eq_def]
      simp [consFst, ih]
    by_cases h6 : c = '\x0c'
    · subst h6
      rw [show escapeChar '\x0c' = ['\\', 'f'] from rfl]
      rw [List.cons_append, List.cons_append, readStr.eq_def]
      simp [consFst, ih]
    by_cases h7 : c = '\x0d'
    · subst h7
      rw [show escapeChar '\x0d' = ['\\', 'r'] from rfl]
      rw [List.cons_append, List.cons_append, readStr.eq_def]
      simp [consFst, ih]
    by_cases h8 : c.toNat < 32
    · have hc : escapeChar c =
          ['\\', 'u', '0', '0', hexDig (c.toNat / 16), hexDig (c.toNat % 16)] := by
        simp [escapeChar, h1, h2, h3, h4, h5, h6, h7, h8]
      rw [hc]
      have hhi : c.toNat / 16 < 16 := by omega
      have hlo : c.toNat % 16 < 16 := by omega
      have h0 : hexVal '0' = some 0 := rfl
      simp only [List.cons_append]
      rw [readStr.eq_def]
      simp [h0, hexVal_hexDig hhi, hexVal_hexDig hlo, consFst, ih]
      calc Char.ofNat (16 * (c.toNat / 16) + c.toNat % 16)
          = Char.ofNat c.toNat := by rw [Nat.div_add_mod]
        _ = c := Char.ofNat_toNat c
    · have hc : escapeChar c = [c] := by
        simp [escapeChar, h1, h2, h3, h4, h5, h6, h7, h8]
      rw [hc, List.cons_append, readStr.eq_def]
      simp [h1, h2, h8, consFst, ih]

/-- Round trip: the manifest text generated for any key and value parses as
a JSON object with exactly that one key and value. -/
theorem parseSingletonObj_generateManifest (k v : List Char) :
    parseSingletonObj (generateManifest k v) = some (k, v) := by
  have h1 : generateManifest k v =
      lbrace :: '"' ::
        (escapeStr k ++ '"' ::
          (':' :: '"' :: (escapeStr v ++ '"' :: [rbrace]))) := by
    simp [generateManifest, jsonString]
  rw [h1, parseSingletonObj.eq_def]
  simp [readStr_escape, consFst]

/-- C3: for every configuration failing any of the four validation checks
(as `onwrite` tests them), the invocation raises an error and performs no
filesystem side effect: the effect list is empty. -/
theorem validation_no_side_effects
    (f : List Char → List Char → List Char) (o : Options) (b : Bundle)
    (d : BundleData) (h : checksFail o = true) :
    (onwrite f o b d).effects = [] ∧ (onwrite f o b d).error.isSome = true := by
  have key : ∃ m, onwrite f o b d = ⟨[], some m, d.map.map SourceMap.file⟩ := by
    simp only [onwrite]
    split
    · exact ⟨_, rfl⟩
    rename_i hc1
    split
    · exact ⟨_, rfl⟩
    rename_i hc2
    split
    · exact ⟨_, rfl⟩
    rename_i hc3
    split
    · exact ⟨_, rfl⟩
    rename_i hc4
    exfalso
    simp only [Bool.not_eq_true] at hc1 hc2 hc3 hc4
    simp [checksFail, hc1, hc2, hc3, hc4] at h
  obtain ⟨m, hm⟩ := key
  rw [hm]
  exact ⟨rfl, rfl⟩

/-- Witness for `validation_no_side_effects`: options with no destination. -/
theorem validation_no_side_effects_witness :
    (onwrite demoHash optsNoDest bundle0 data0).effects = [] ∧
    (onwrite demoHash optsNoDest bundle0 data0).error.isSome = true :=
  validation_no_side_effects demoHash optsNoDest bundle0 data0 (by decide)

/-- C4: when validation succeeds, `onwrite` reports no error and its effects
are exactly, in order: the `replace` unlink of the original artifact, the
manifest directory creation and manifest write (when configured), the
creation of the resolved path's parent directories, the source-map sibling
write (when applicable), the write of the code to the resolved path, and
finally the callback invocation with the resolved path (when configured),
after all writes. -/
theorem effect_order (f : List Char → List Char → List Char)
    (o : Options) (b : Bundle) (d : BundleData) (dst : List Char)
    (hdst : destinationOption o = some dst)
    (hok : checksFail o = false)
    (hmap : smTruthy b.sourcemap = true → ∃ m, d.map = some m) :
    (onwrite f o b d).error = none ∧
    (onwrite f o b d).effects =
      (if o.replace then [Effect.unlink (builtFile b)] else []) ++
      (if optTruthy o.manifest then
         [Effect.mkdirpath (manifestPath o),
          Effect.writeFile (manifestPath o)
            (generateManifest (manifestKeyOrBuilt o (builtFile b))
              (formatFilename dst (f o.algorithm d.code)))]
       else []) ++
      [Effect.mkdirpath (formatFilename dst (f o.algorithm d.code))] ++
      mapSiblingEffects b d (formatFilename dst (f o.algorithm d.code)) ++
      [Effect.writeFile (formatFilename dst (f o.algorithm d.code))
         (emittedCode b d (formatFilename dst (f o.algorithm d.code)))] ++
      (if o.callback then
         [Effect.callback (formatFilename dst (f o.algorithm d.code))]
       else []) := by
  unfold checksFail at hok
  obtain ⟨u1, hE⟩ := Bool.or_eq_false_iff.mp hok
  obtain ⟨u2, hD⟩ := Bool.or_eq_false_iff.mp u1
  obtain ⟨u3, hC⟩ := Bool.or_eq_false_iff.mp u2
  obtain ⟨hA, hB⟩ := Bool.or_eq_false_iff.mp u3
  rw [hdst] at hA hB
  simp only [onwrite]
  rw [hdst]
  simp only [Option.getD_some] at *
  rcases hsm : b.sourcemap with _ | _ | _
  · simp [hA, hB, hC, hD, hE, hsm, smTruthy, mapSiblingEffects, emittedCode]
  · obtain ⟨m, hm⟩ := hmap (by rw [hsm]; rfl)
    simp [hA, hB, hC, hD, hE, hsm, hm, smTruthy, mapSiblingEffects, emittedCode]
  · obtain ⟨m, hm⟩ := hmap (by rw [hsm]; rfl)
    simp [hA, hB, hC, hD, hE, hsm, hm, smTruthy, mapSiblingEffects, emittedCode]

/-- A name outside both the four own keys and the inherited
`Object.prototype` property names looks up to `false`. -/
theorem algLookup_false_of_not_mem {a : List Char}
    (h : a ∉ [['m','d','5'], ['s','h','a','1'],
              ['s','h','a','2','5','6'], ['s','h','a','5','1','2']])
    (hp : a ∉ objectPrototypeKeys) :
    algLookup a = false := by
  simp only [List.mem_cons, List.not_mem_nil, or_false, not_or] at h
  obtain ⟨n1, n2, n3, n4⟩ := h
  have m1 : ¬(['m','d','5'] = a) := fun e => n1 e.symm
  have m2 : ¬(['s','h','a','1'] = a) := fun e => n2 e.symm
  have m3 : ¬(['s','h','a','2','5','6'] = a) := fun e => n3 e.symm
  have m4 : ¬(['s','h','a','5','1','2'] = a) := fun e => n4 e.symm
  simp [algLookup, algorithms, List.find?, m1, m2, m3, m4, hp]

/-- A present, nonempty destination string is truthy. -/
theorem jsStrTruthy_of_ne {dst : List Char} (hne : dst ≠ []) :
    (!jsStrTruthy (some dst)) = false := by
  rcases dst with _ | ⟨c, cs⟩
  · exact absurd rfl hne
  · rfl

/-- C6 (amended): for every supplied `algorithm` that is neither a member of
the set `md5, sha1, sha256, sha512` nor an inherited `Object.prototype`
property name (with a valid template), the invocation fails with the
unsupported-algorithm error and no side effects; every member of the set
passes the algorithm lookup, and the inherited property names also pass it —
for those the unsupported-algorithm error is never raised (see
`prototype_algorithm_accepted`). -/
theorem unsupported_algorithm (f : List Char → List Char → List Char)
    (o : Options) (b : Bundle) (d : BundleData) (dst : List Char)
    (hdst : destinationOption o = some dst)
    (hne : dst ≠ [])
    (ht : hasTemplate dst = true)
    (hbad : o.algorithm ∉ [("md5".toList), ("sha1".toList),
                           ("sha256".toList), ("sha512".toList)])
    (hproto : o.algorithm ∉ objectPrototypeKeys) :
    ((onwrite f o b d).error = some msgNoAlgorithm ∧
     (onwrite f o b d).effects = []) ∧
    (algLookup ("md5".toList) = true ∧ algLookup ("sha1".toList) = true ∧
     algLookup ("sha256".toList) = true ∧ algLookup ("sha512".toList) = true) ∧
    (∀ p ∈ objectPrototypeKeys, algLookup p = true) := by
  refine ⟨?_, by decide, by decide⟩
  have halg : algLookup o.algorithm = false :=
    algLookup_false_of_not_mem (by simpa using hbad) hproto
  have hA := jsStrTruthy_of_ne hne
  simp only [onwrite]
  rw [hdst]
  simp [hA, ht, halg]

/-- Witness for `unsupported_algorithm`: the algorithm `foo`. -/
theorem unsupported_algorithm_witness :
    ((onwrite demoHash optsBadAlg bundle0 data0).error = some msgNoAlgorithm ∧
     (onwrite demoHash optsBadAlg bundle0 data0).effects = []) ∧
    (algLookup ("md5".toList) = true ∧ algLookup ("sha1".toList) = true ∧
     algLookup ("sha256".toList) = true ∧ algLookup ("sha512".toList) = true) ∧
    (∀ p ∈ objectPrototypeKeys, algLookup p = true) :=
  unsupported_algorithm demoHash optsBadAlg bundle0 data0
    ("tmp/[hash].js".toList) rfl (by decide) (by decide) (by decide) (by decide)

/-- Counterexample to C6 as stated: `toString` is not one of the four
supported algorithm names, yet `algorithms['toString']` resolves through the
prototype chain to a truthy function, so the validation check passes and the
invocation does not fail with the unsupported-algorithm error (the external
digest function rejects the name later, with a different error). -/
theorem prototype_algorithm_accepted :
    ("toString".toList ∉ [("md5".toList), ("sha1".toList),
                          ("sha256".toList), ("sha512".toList)]) ∧
    algLookup ("toString".toList) = true ∧
    checksFail optsProtoAlg = false ∧
    (onwrite demoHash optsProtoAlg bundle0 data0).error ≠
      some msgNoAlgorithm := by
  decide

/-- C7 (amended): for every supplied truthy non-string `manifest` value (with
the template and algorithm checks passing) the invocation fails with the
manifest-must-be-a-string error and no side effects; and for every supplied
truthy non-string `manifestKey` (with the manifest check also passing) it
fails with the manifest-key-must-be-a-string error and no side effects.
Falsy non-string values are silently accepted — see
`manifest_falsy_nonstring_accepted`. -/
theorem manifest_type_validation (f : List Char → List Char → List Char)
    (o : Options) (b : Bundle) (d : BundleData) (dst : List Char)
    (hdst : destinationOption o = some dst)
    (hne : dst ≠ [])
    (ht : hasTemplate dst = true)
    (halg : algLookup o.algorithm = true) :
    (optTruthy o.manifest = true → optNonStr o.manifest = true →
       (onwrite f o b d).error = some msgNoManifest ∧
       (onwrite f o b d).effects = []) ∧
    ((optTruthy o.manifest && optNonStr o.manifest) = false →
       optTruthy o.manifestKey = true → optNonStr o.manifestKey = true →
       (onwrite f o b d).error = some msgNoManifestKey ∧
       (onwrite f o b d).effects = []) := by
  have hA := jsStrTruthy_of_ne hne
  constructor
  · intro hm1 hm2
    simp only [onwrite]
    rw [hdst]
    simp [hA, ht, halg, hm1, hm2]
  · intro hmf hk1 hk2
    simp only [onwrite]
    rw [hdst]
    simp [hA, ht, halg, hmf, hk1, hk2]

/-- Witness for `manifest_type_validation`: manifest supplied as number 1. -/
theorem manifest_type_validation_witness :
    (optTruthy optsTruthyNonStrManifest.manifest = true →
       optNonStr optsTruthyNonStrManifest.manifest = true →
       (onwrite demoHash optsTruthyNonStrManifest bundle0 data0).error =
         some msgNoManifest ∧
       (onwrite demoHash optsTruthyNonStrManifest bundle0 data0).effects = []) ∧
    ((optTruthy optsTruthyNonStrManifest.manifest &&
        optNonStr optsTruthyNonStrManifest.manifest) = false →
       optTruthy optsTruthyNonStrManifest.manifestKey = true →
       optNonStr optsTruthyNonStrManifest.manifestKey = true →
       (onwrite demoHash optsTruthyNonStrManifest bundle0 data0).error =
         some msgNoManifestKey ∧
       (onwrite demoHash optsTruthyNonStrManifest bundle0 data0).effects = []) :=
  manifest_type_validation demoHash optsTruthyNonStrManifest bundle0 data0
    ("tmp/[hash].js".toList) rfl (by decide) (by decide) (by decide)

/-- Counterexample to C7 as stated: the number `0` supplied as `manifest` is
not a string, yet the invocation raises no error and performs its effects —
the JS truthiness guard skips the type check for falsy values. -/
theorem manifest_falsy_nonstring_accepted :
    optsFalsyManifest.manifest.isSome = true ∧
    optNonStr optsFalsyManifest.manifest = true ∧
    (onwrite demoHash optsFalsyManifest bundle0 data0).error = none ∧
    (onwrite demoHash optsFalsyManifest bundle0 data0).effects ≠ [] := by
  decide

/-- C5 (amended): for every invocation with `manifest` configured as a
nonempty string, the effects include a write to the manifest path whose text
parses as a JSON object with exactly one key, the key being `manifestKey`
when supplied as a nonempty string and the original artifact path when
`manifestKey` is falsy (absent or empty), and the value being the resolved
hashed path. -/
theorem manifest_contents (f : List Char → List Char → List Char)
    (o : Options) (b : Bundle) (d : BundleData) (dst ms bp : List Char)
    (hdst : destinationOption o = some dst)
    (hne : dst ≠ [])
    (ht : hasTemplate dst = true)
    (halg : algLookup o.algorithm = true)
    (hman : o.manifest = some (JSVal.str ms))
    (hms : ms ≠ [])
    (hmk : optTruthy o.manifestKey = true → optNonStr o.manifestKey = false)
    (hbf : builtFile b = some bp) :
    Effect.writeFile ms
        (generateManifest (manifestKeyOrBuilt o (builtFile b))
          (formatFilename dst (f o.algorithm d.code)))
      ∈ (onwrite f o b d).effects ∧
    parseSingletonObj
        (generateManifest (manifestKeyOrBuilt o (builtFile b))
          (formatFilename dst (f o.algorithm d.code))) =
      some (manifestKeyOrBuilt o (builtFile b),
            formatFilename dst (f o.algorithm d.code)) ∧
    (∀ s : List Char, o.manifestKey = some (JSVal.str s) → s ≠ [] →
       manifestKeyOrBuilt o (builtFile b) = s) ∧
    (optTruthy o.manifestKey = false →
       manifestKeyOrBuilt o (builtFile b) = bp) := by
  have hA := jsStrTruthy_of_ne hne
  have hMT : optTruthy o.manifest = true := by
    rw [hman]
    rcases ms with _ | ⟨c, cs⟩
    · exact absurd rfl hms
    · rfl
  have hMS : optNonStr o.manifest = false := by rw [hman]; rfl
  have hK : (optTruthy o.manifestKey && optNonStr o.manifestKey) = false := by
    cases hkt : optTruthy o.manifestKey
    · rfl
    · simp [hmk hkt]
  have hPath : manifestPath o = ms := by rw [manifestPath, hman]
  refine ⟨?_, parseSingletonObj_generateManifest _ _, ?_, ?_⟩
  · simp only [onwrite]
    rw [hdst]
    simp only [Option.getD_some]
    rcases hsm : b.sourcemap with _ | _ | _ <;>
      rcases hdm : d.map with _ | ⟨m⟩ <;>
        simp [hA, ht, halg, hMT, hMS, hK, smTruthy, hPath, List.mem_append]
  · intro s hs hsne
    have : (!s.isEmpty) = true := by
      rcases s with _ | ⟨c, cs⟩
      · exact absurd rfl hsne
      · rfl
    simp [manifestKeyOrBuilt, hs, optTruthy, JSVal.truthy, this, JSVal.keyString]
  · intro hkf
    simp [manifestKeyOrBuilt, hkf, hbf]

/-- Witness for `manifest_contents`: a manifest with no `manifestKey`. -/
theorem manifest_contents_witness :
    Effect.writeFile ("manifest.json".toList)
        (generateManifest (manifestKeyOrBuilt optsManifest (builtFile bundle0))
          (formatFilename ("tmp/[hash].js".toList)
            (demoHash optsManifest.algorithm data0.code)))
      ∈ (onwrite demoHash optsManifest bundle0 data0).effects ∧
    parseSingletonObj
        (generateManifest (manifestKeyOrBuilt optsManifest (builtFile bundle0))
          (formatFilename ("tmp/[hash].js".toList)
            (demoHash optsManifest.algorithm data0.code))) =
      some (manifestKeyOrBuilt optsManifest (builtFile bundle0),
            formatFilename ("tmp/[hash].js".toList)
              (demoHash optsManifest.algorithm data0.code)) ∧
    (∀ s : List Char, optsManifest.manifestKey = some (JSVal.str s) → s ≠ [] →
       manifestKeyOrBuilt optsManifest (builtFile bundle0) = s) ∧
    (optTruthy optsManifest.manifestKey = false →
       manifestKeyOrBuilt optsManifest (builtFile bundle0) =
         "tmp/index.js".toList) :=
  manifest_contents demoHash optsManifest bundle0 data0
    ("tmp/[hash].js".toList) ("manifest.json".toList) ("tmp/index.js".toList)
    rfl (by decide) (by decide) (by decide) rfl (by decide)
    (fun h => absurd h (by decide)) (by decide)

/-- Counterexample to C5 as stated: with `manifestKey` supplied as the empty
string, the manifest written uses the original artifact path `tmp/index.js`
as its key — not the supplied `manifestKey` — because the JS `||` fallback
treats the empty string as absent. -/
theorem manifest_key_empty_ignored :
    optsEmptyKey.manifestKey = some (JSVal.str []) ∧
    Effect.writeFile ("manifest.json".toList)
        (generateManifest ("tmp/index.js".toList)
          (formatFilename ("tmp/[hash].js".toList)
            (demoHash optsEmptyKey.algorithm data0.code)))
      ∈ (onwrite demoHash optsEmptyKey bundle0 data0).effects ∧
    parseSingletonObj
        (generateManifest ("tmp/index.js".toList)
          (formatFilename ("tmp/[hash].js".toList)
            (demoHash optsEmptyKey.algorithm data0.code))) =
      some ("tmp/index.js".toList,
            formatFilename ("tmp/[hash].js".toList)
              (demoHash optsEmptyKey.algorithm data0.code)) ∧
    ("tmp/index.js".toList ≠ ([] : List Char)) ∧
    (Effect.writeFile ("manifest.json".toList)
         (generateManifest []
           (formatFilename ("tmp/[hash].js".toList)
             (demoHash optsEmptyKey.algorithm data0.code))) ∉
       (onwrite demoHash optsEmptyKey bundle0 data0).effects) := by
  decide

/-- C9: when the artifact has a source map: in non-inline mode the final map
`file` field is the basename of the resolved path, a sibling `.map` file is
written with the serialized map, and the emitted code ends with a comment
referencing the sibling's basename; in inline mode the `file` field is set
the same way, no sibling `.map` file is written, and the emitted code ends
with a comment embedding the map's URL. -/
theorem sourcemap_emission (f : List Char → List Char → List Char)
    (o : Options) (b : Bundle) (d : BundleData) (dst : List Char)
    (m : SourceMap)
    (hdst : destinationOption o = some dst)
    (hne : dst ≠ [])
    (ht : hasTemplate dst = true)
    (halg : algLookup o.algorithm = true)
    (hmanoff : optTruthy o.manifest = false)
    (hK : (optTruthy o.manifestKey && optNonStr o.manifestKey) = false)
    (hm : d.map = some m) :
    (b.sourcemap = SMapMode.plain →
       (onwrite f o b d).mapFile =
         some (basename (formatFilename dst (f o.algorithm d.code))) ∧
       Effect.writeFile (formatFilename dst (f o.algorithm d.code) ++ dotMap)
           (m.serialize (basename (formatFilename dst (f o.algorithm d.code))))
         ∈ (onwrite f o b d).effects ∧
       Effect.writeFile (formatFilename dst (f o.algorithm d.code))
           (d.code ++ smComment ++
             (basename (formatFilename dst (f o.algorithm d.code)) ++ dotMap))
         ∈ (onwrite f o b d).effects ∧
       (smComment ++
           (basename (formatFilename dst (f o.algorithm d.code)) ++ dotMap)) <:+
         (d.code ++ smComment ++
           (basename (formatFilename dst (f o.algorithm d.code)) ++ dotMap))) ∧
    (b.sourcemap = SMapMode.inlineMap →
       (onwrite f o b d).mapFile =
         some (basename (formatFilename dst (f o.algorithm d.code))) ∧
       (∀ c : List Char,
          Effect.writeFile (formatFilename dst (f o.algorithm d.code) ++ dotMap) c
            ∉ (onwrite f o b d).effects) ∧
       Effect.writeFile (formatFilename dst (f o.algorithm d.code))
           (d.code ++ smComment ++
             m.toUrl (basename (formatFilename dst (f o.algorithm d.code))))
         ∈ (onwrite f o b d).effects ∧
       (smComment ++
           m.toUrl (basename (formatFilename dst (f o.algorithm d.code)))) <:+
         (d.code ++ smComment ++
           m.toUrl (basename (formatFilename dst (f o.algorithm d.code))))) := by
  have hA := jsStrTruthy_of_ne hne
  have hfn : formatFilename dst (f o.algorithm d.code) ++ dotMap ≠
      formatFilename dst (f o.algorithm d.code) := by
    intro e
    have hl := congrArg List.length e
    simp [dotMap] at hl
  constructor
  · intro hsm
    refine ⟨?_, ?_, ?_, ⟨d.code, by simp⟩⟩
    · simp only [onwrite]
      rw [hdst]
      simp [hA, ht, halg, hmanoff, hK, hsm, hm, smTruthy]
    · simp only [onwrite]
      rw [hdst]
      rcases hr : o.replace <;> rcases hc : o.callback <;>
        simp [hA, ht, halg, hmanoff, hK, hsm, hm, smTruthy, hr, hc]
    · simp only [onwrite]
      rw [hdst]
      rcases hr : o.replace <;> rcases hc : o.callback <;>
        simp [hA, ht, halg, hmanoff, hK, hsm, hm, smTruthy, hr, hc]
  · intro hsm
    refine ⟨?_, ?_, ?_, ⟨d.code, by simp⟩⟩
    · simp only [onwrite]
      rw [hdst]
      simp [hA, ht, halg, hmanoff, hK, hsm, hm, smTruthy]
    · intro c
      simp only [onwrite]
      rw [hdst]
      rcases hr : o.replace <;> rcases hc : o.callback <;>
        simp [hA, ht, halg, hmanoff, hK, hsm, hm, smTruthy, hr, hc, hfn]
    · simp only [onwrite]
      rw [hdst]
      rcases hr : o.replace <;> rcases hc : o.callback <;>
        simp [hA, ht, halg, hmanoff, hK, hsm, hm, smTruthy, hr, hc]

/-- Witness for `effect_order`: a full configuration with `replace`, a
manifest, a non-inline source map and a callback. -/
theorem effect_order_witness :
    (onwrite demoHash optsFull bundleSM dataSM).error = none ∧
    (onwrite demoHash optsFull bundleSM dataSM).effects =
      (if optsFull.replace then [Effect.unlink (builtFile bundleSM)] else []) ++
      (if optTruthy optsFull.manifest then
         [Effect.mkdirpath (manifestPath optsFull),
          Effect.writeFile (manifestPath optsFull)
            (generateManifest (manifestKeyOrBuilt optsFull (builtFile bundleSM))
              (formatFilename ("tmp/[hash].js".toList)
                (demoHash optsFull.algorithm dataSM.code)))]
       else []) ++
      [Effect.mkdirpath (formatFilename ("tmp/[hash].js".toList)
         (demoHash optsFull.algorithm dataSM.code))] ++
      mapSiblingEffects bundleSM dataSM
        (formatFilename ("tmp/[hash].js".toList)
          (demoHash optsFull.algorithm dataSM.code)) ++
      [Effect.writeFile
         (formatFilename ("tmp/[hash].js".toList)
           (demoHash optsFull.algorithm dataSM.code))
         (emittedCode bundleSM dataSM
           (formatFilename ("tmp/[hash].js".toList)
             (demoHash optsFull.algorithm dataSM.code)))] ++
      (if optsFull.callback then
         [Effect.callback (formatFilename ("tmp/[hash].js".toList)
            (demoHash optsFull.algorithm dataSM.code))]
       else []) :=
  effect_order demoHash optsFull bundleSM dataSM ("tmp/[hash].js".toList)
    rfl (by decide) (fun _ => ⟨demoMap, rfl⟩)

/-- Witness for `sourcemap_emission`: the non-inline bundle `bundleSM`. -/
theorem sourcemap_emission_witness :
    (bundleSM.sourcemap = SMapMode.plain →
       (onwrite demoHash optsPlainDest bundleSM dataSM).mapFile =
         some (basename (formatFilename ("tmp/[hash].js".toList)
           (demoHash optsPlainDest.algorithm dataSM.code))) ∧
       Effect.writeFile
           (formatFilename ("tmp/[hash].js".toList)
             (demoHash optsPlainDest.algorithm dataSM.code) ++ dotMap)
           (demoMap.serialize (basename (formatFilename ("tmp/[hash].js".toList)
             (demoHash optsPlainDest.algorithm dataSM.code))))
         ∈ (onwrite demoHash optsPlainDest bundleSM dataSM).effects ∧
       Effect.writeFile
           (formatFilename ("tmp/[hash].js".toList)
             (demoHash optsPlainDest.algorithm dataSM.code))
           (dataSM.code ++ smComment ++
             (basename (formatFilename ("tmp/[hash].js".toList)
               (demoHash optsPlainDest.algorithm dataSM.code)) ++ dotMap))
         ∈ (onwrite demoHash optsPlainDest bundleSM dataSM).effects ∧
       (smComment ++
           (basename (formatFilename ("tmp/[hash].js".toList)
             (demoHash optsPlainDest.algorithm dataSM.code)) ++ dotMap)) <:+
         (dataSM.code ++ smComment ++
           (basename (formatFilename ("tmp/[hash].js".toList)
             (demoHash optsPlainDest.algorithm dataSM.code)) ++ dotMap))) ∧
    (bundleSM.sourcemap = SMapMode.inlineMap →
       (onwrite demoHash optsPlainDest bundleSM dataSM).mapFile =
         some (basename (formatFilename ("tmp/[hash].js".toList)
           (demoHash optsPlainDest.algorithm dataSM.code))) ∧
       (∀ c : List Char,
          Effect.writeFile
              (formatFilename ("tmp/[hash].js".toList)
                (demoHash optsPlainDest.algorithm dataSM.code) ++ dotMap) c
            ∉ (onwrite demoHash optsPlainDest bundleSM dataSM).effects) ∧
       Effect.writeFile
           (formatFilename ("tmp/[hash].js".toList)
             (demoHash optsPlainDest.algorithm dataSM.code))
           (dataSM.code ++ smComment ++
             demoMap.toUrl (basename (formatFilename ("tmp/[hash].js".toList)
               (demoHash optsPlainDest.algorithm dataSM.code))))
         ∈ (onwrite demoHash optsPlainDest bundleSM dataSM).effects ∧
       (smComment ++
           demoMap.toUrl (basename (formatFilename ("tmp/[hash].js".toList)
             (demoHash optsPlainDest.algorithm dataSM.code)))) <:+
         (dataSM.code ++ smComment ++
           demoMap.toUrl (basename (formatFilename ("tmp/[hash].js".toList)
             (demoHash optsPlainDest.algorithm dataSM.code))))) :=
  sourcemap_emission demoHash optsPlainDest bundleSM dataSM
    ("tmp/[hash].js".toList) demoMap rfl (by decide) (by decide) (by decide)
    (by decide) (by decide) rfl
